import Mathlib

/-!
Verification of the gradient-descent core of `src/main.js` (intercept-only
linear regression demo).  JavaScript numbers are modelled as exact rationals;
the cooperative animation loop is modelled as an explicit event trace whose
list order is tick (time) order.
-/

namespace MathFinal

/-- A data point, as the JS objects `{x, y}`. -/
structure Point where
  x : ℚ
  y : ℚ
deriving DecidableEq

/-- A dataset: `{points: [...]}`.  The JS objects also cache `optimalB`, which
is derived data recomputed by `computeOptimalB`, so it is not part of the
embedded state. -/
structure Dataset where
  points : List Point
deriving DecidableEq

/-- Embeds `computeMSE` (src/main.js lines 65-70): residuals, squared errors,
then the mean of the squared errors. -/
def computeMSE (data : Dataset) (b : ℚ) : ℚ :=
  let residuals := data.points.map (fun point => point.y - b)
  let squaredErrors := residuals.map (fun r => r * r)
  squaredErrors.sum / (data.points.length : ℚ)

/-- Embeds `computeMSEDerivative` (src/main.js lines 76-81):
`-(2/n) * sum(y_i - b)`. -/
def computeMSEDerivative (data : Dataset) (b : ℚ) : ℚ :=
  let residuals := data.points.map (fun point => point.y - b)
  let sumResiduals := residuals.sum
  let derivative := -(2 / (data.points.length : ℚ)) * sumResiduals
  derivative

/-- Embeds `computeOptimalB` (src/main.js lines 86-90): the mean of the
y-values. -/
def computeOptimalB (data : Dataset) : ℚ :=
  let yValues := data.points.map (fun p => p.y)
  yValues.sum / (yValues.length : ℚ)

/-- Embeds `mainData` (src/main.js lines 11-17): points (2, 2.5), (7, 6.5). -/
def mainData : Dataset := ⟨[⟨2, 5/2⟩, ⟨7, 13/2⟩]⟩

/-- One row of the iteration history (src/main.js line 48 and lines 712-717). -/
structure HistoryEntry where
  iteration : ℕ
  b : ℚ
  mse : ℚ
  gradient : ℚ
deriving DecidableEq

/-- The gradient-descent state `gdState` (src/main.js lines 46-50). -/
structure GDState where
  currentB : ℚ
  history : List HistoryEntry
  isRunning : Bool
deriving DecidableEq

/-- Embeds `stepGradientDescent` (src/main.js lines 702-725) as its net state
effect: the gradient, new b and mse are computed from the pre-step b, one
history entry is pushed with `iteration = history.length`, and after the
awaited animation finishes `currentB` holds `newB` (the animation's final
snap, line 694). -/
def stepGradientDescent (data : Dataset) (learningRate : ℚ) (state : GDState) : GDState :=
  let currentB := state.currentB
  let gradient := computeMSEDerivative data currentB
  let newB := currentB - learningRate * gradient
  let mse := computeMSE data currentB
  let iteration := state.history.length
  { state with
      history := state.history ++ [⟨iteration, currentB, mse, gradient⟩]
      currentB := newB }

/-- One iteration of the `for` loop body of `runGradientDescent`
(src/main.js lines 738-757): identical update rule, but the recorded
iteration number is the loop counter `i`. -/
def runGDIter (data : Dataset) (learningRate : ℚ) (i : ℕ) (state : GDState) : GDState :=
  let currentB := state.currentB
  let gradient := computeMSEDerivative data currentB
  let newB := currentB - learningRate * gradient
  let mse := computeMSE data currentB
  { state with
      history := state.history ++ [⟨i, currentB, mse, gradient⟩]
      currentB := newB }

/-- Embeds `runGradientDescent` (src/main.js lines 727-761): no-op when
`isRunning` is already true; otherwise sets `isRunning`, clears the history,
runs the loop for `i = 0 .. iterations-1`, then clears `isRunning`. -/
def runGradientDescent (data : Dataset) (learningRate : ℚ) (iterations : ℕ)
    (state : GDState) : GDState :=
  if state.isRunning then state
  else
    let started := { state with isRunning := true, history := ([] : List HistoryEntry) }
    let looped := (List.range iterations).foldl
      (fun s i => runGDIter data learningRate i s) started
    { looped with isRunning := false }

/-- Repeated Step Once clicks: `n`-fold iteration of `stepGradientDescent`. -/
def stepN (data : Dataset) (learningRate : ℚ) (state : GDState) : ℕ → GDState
  | 0 => state
  | n + 1 => stepGradientDescent data learningRate (stepN data learningRate state n)

/-- The sequence of pre-iteration `b` values of the run loop: `gdIterate k` is
the value of `gdState.currentB` just before loop iteration `k`. -/
def gdIterate (data : Dataset) (learningRate : ℚ) (b0 : ℚ) : ℕ → ℚ
  | 0 => b0
  | k + 1 =>
      let b := gdIterate data learningRate b0 k
      b - learningRate * computeMSEDerivative data b

/-- The history entry the run loop records at iteration `i` when started
from `b0`. -/
def runEntry (data : Dataset) (learningRate : ℚ) (b0 : ℚ) (i : ℕ) : HistoryEntry :=
  ⟨i, gdIterate data learningRate b0 i,
    computeMSE data (gdIterate data learningRate b0 i),
    computeMSEDerivative data (gdIterate data learningRate b0 i)⟩

/-- Observable events of `animateGradientDescentStep` (src/main.js 671-700),
in time order.  A `tick b` is one loop iteration (lines 676-691): it assigns
`b` to `gdState.currentB` and to the slider, and updates the display.
A `snap b` is the post-loop snap (lines 694-696) doing the same assignments.
`complete` is the `onDone()` invocation (line 699). -/
inductive AnimEvent where
  | tick (b : ℚ)
  | snap (b : ℚ)
  | complete
deriving DecidableEq

/-- The loop-body interpolation of `animateGradientDescentStep`
(src/main.js lines 678-682): ease-out cubic between `oldB` and `newB`. -/
def interpolatedB (oldB newB : ℚ) (steps i : ℕ) : ℚ :=
  let progress : ℚ := (i : ℚ) / (steps : ℚ)
  let easeProgress : ℚ := 1 - (1 - progress) ^ 3
  oldB + (newB - oldB) * easeProgress

/-- The interpolation step count hard-coded in `animateGradientDescentStep`
(src/main.js line 673): `const steps = 20`. -/
def animSteps : ℕ := 20

/-- Event trace of `animateGradientDescentStep` generalised over the step
count: ticks for `i = 1 .. steps` in time order, then the final snap to
`newB`, then the completion callback. -/
def animTrace (oldB newB : ℚ) (steps : ℕ) : List AnimEvent :=
  ((List.range steps).map fun k => AnimEvent.tick (interpolatedB oldB newB steps (k + 1)))
    ++ [AnimEvent.snap newB, AnimEvent.complete]

/-- Embeds `animateGradientDescentStep` (src/main.js lines 671-700) with its
hard-coded step count. -/
def animateGradientDescentStep (oldB newB : ℚ) : List AnimEvent :=
  animTrace oldB newB animSteps

/-- The successive values an animation trace assigns to `gdState.currentB`:
both ticks (line 685) and the snap (line 694) write `currentB`; the
completion callback does not. -/
def currentBWrites : List AnimEvent → List ℚ
  | [] => []
  | AnimEvent.tick b :: rest => b :: currentBWrites rest
  | AnimEvent.snap b :: rest => b :: currentBWrites rest
  | AnimEvent.complete :: rest => currentBWrites rest

/-- Whether an event is a tick (an `onTick` invocation). -/
def AnimEvent.isTick : AnimEvent → Bool
  | AnimEvent.tick _ => true
  | _ => false

/-- Whether an event is the completion callback. -/
def AnimEvent.isComplete : AnimEvent → Bool
  | AnimEvent.complete => true
  | _ => false

/-! ### Helper lemmas -/

lemma sum_map_sub (l : List Point) (b : ℚ) :
    (l.map (fun point => point.y - b)).sum
      = (l.map (fun p => p.y)).sum - (l.length : ℚ) * b := by
  induction l with
  | nil => simp
  | cons p t ih =>
      simp only [List.map_cons, List.sum_cons, ih, List.length_cons]
      push_cast
      ring

lemma sum_map_mul_self_nonneg (l : List ℚ) : 0 ≤ (l.map (fun r => r * r)).sum := by
  induction l with
  | nil => simp
  | cons a t ih =>
      simpa using add_nonneg (mul_self_nonneg a) ih

lemma sum_map_mul_self_eq_zero (l : List ℚ) :
    (l.map (fun r => r * r)).sum = 0 ↔ ∀ r ∈ l, r = 0 := by
  induction l with
  | nil => simp
  | cons a t ih =>
      simp only [List.map_cons, List.sum_cons, List.mem_cons]
      rw [add_eq_zero_iff_of_nonneg (mul_self_nonneg a) (sum_map_mul_self_nonneg t),
        mul_self_eq_zero, ih]
      constructor
      · rintro ⟨ha, ht⟩ r (rfl | hr)
        · exact ha
        · exact ht r hr
      · intro h
        exact ⟨h a (Or.inl rfl), fun r hr => h r (Or.inr hr)⟩

lemma length_pos_cast (data : Dataset) (hne : data.points ≠ []) :
    0 < (data.points.length : ℚ) := by
  have : 0 < data.points.length := List.length_pos.mpr hne
  exact_mod_cast this

lemma computeMSE_eq (data : Dataset) (b : ℚ) :
    computeMSE data b
      = ((data.points.map (fun point => point.y - b)).map (fun r => r * r)).sum
          / (data.points.length : ℚ) := rfl

lemma computeMSEDerivative_eq (data : Dataset) (b : ℚ) :
    computeMSEDerivative data b
      = -(2 / (data.points.length : ℚ))
          * (data.points.map (fun point => point.y - b)).sum := rfl

lemma computeOptimalB_eq (data : Dataset) :
    computeOptimalB data
      = (data.points.map (fun p => p.y)).sum
          / ((data.points.map (fun p => p.y)).length : ℚ) := rfl

/-! ### Claim theorems -/

/-- C1: one optimizer step computes `gradient = mseDerivative(D, b)` and the
new b is exactly `b - lr * mseDerivative(D, b)`; the dataset is untouched
(the embedding is a pure function of it) and the same update rule is used by
Step Once (`stepGradientDescent`) and by the Run loop body (`runGDIter`). -/
theorem C1_optimizer_step_update (data : Dataset) (_hne : data.points ≠ [])
    (learningRate : ℚ) (state : GDState) (i : ℕ) :
    (stepGradientDescent data learningRate state).currentB
      = state.currentB - learningRate * computeMSEDerivative data state.currentB ∧
    ((stepGradientDescent data learningRate state).history.getLast?.map
        (fun e => e.gradient)) = some (computeMSEDerivative data state.currentB) ∧
    (runGDIter data learningRate i state).currentB
      = state.currentB - learningRate * computeMSEDerivative data state.currentB := by
  refine ⟨rfl, ?_, rfl⟩
  simp [stepGradientDescent]

/-- C1 witness: the theorem applied to the main dataset at `b = 3`,
`lr = 1/5`. -/
theorem C1_optimizer_step_update_witness :
    mainData.points ≠ [] ∧
    (stepGradientDescent mainData (1/5) ⟨3, [], false⟩).currentB
      = 3 - (1/5) * computeMSEDerivative mainData 3 :=
  ⟨by simp [mainData],
    (C1_optimizer_step_update mainData (by simp [mainData]) (1/5) ⟨3, [], false⟩ 0).1⟩

/-- C2: `optimalB` is the arithmetic mean of the y-values, the derivative
vanishes there, and it is the unique root of the derivative. -/
theorem C2_optimalB_unique_root (data : Dataset) (hne : data.points ≠ []) :
    computeOptimalB data
      = (data.points.map (fun p => p.y)).sum / (data.points.length : ℚ) ∧
    computeMSEDerivative data (computeOptimalB data) = 0 ∧
    ∀ b : ℚ, computeMSEDerivative data b = 0 → b = computeOptimalB data := by
  have hn : 0 < (data.points.length : ℚ) := length_pos_cast data hne
  have hn' : (data.points.length : ℚ) ≠ 0 := ne_of_gt hn
  have hmean : computeOptimalB data
      = (data.points.map (fun p => p.y)).sum / (data.points.length : ℚ) := by
    rw [computeOptimalB_eq, List.length_map]
  refine ⟨hmean, ?_, ?_⟩
  · rw [computeMSEDerivative_eq, sum_map_sub, hmean, mul_div_cancel₀ _ hn']
    simp
  · intro b hb
    rw [computeMSEDerivative_eq, sum_map_sub] at hb
    rcases mul_eq_zero.mp hb with h | h
    · exfalso
      have h2 : (2 : ℚ) / (data.points.length : ℚ) ≠ 0 :=
        div_ne_zero two_ne_zero hn'
      exact h2 (by linarith [neg_eq_zero.mp h])
    · have hsum : (data.points.map (fun p => p.y)).sum
          = (data.points.length : ℚ) * b := by
        linarith
      rw [hmean, hsum, mul_div_cancel_left₀ _ hn']

/-- C2 witness: on the main dataset the optimum is 9/2, the derivative
vanishes there, and 9/2 is its only root. -/
theorem C2_optimalB_unique_root_witness :
    mainData.points ≠ [] ∧
    computeMSEDerivative mainData (computeOptimalB mainData) = 0 ∧
    computeOptimalB mainData = 9/2 :=
  ⟨by simp [mainData],
    (C2_optimalB_unique_root mainData (by simp [mainData])).2.1,
    by norm_num [computeOptimalB, mainData]⟩

/-- C3: the MSE is the mean of the squared residuals, it is nonnegative, and
it vanishes exactly when every point's y-value equals `b`. -/
theorem C3_mse_nonneg_zero_iff (data : Dataset) (hne : data.points ≠ []) (b : ℚ) :
    computeMSE data b
      = (data.points.map (fun p => (p.y - b) ^ 2)).sum / (data.points.length : ℚ) ∧
    0 ≤ computeMSE data b ∧
    (computeMSE data b = 0 ↔ ∀ p ∈ data.points, p.y = b) := by
  have hn : 0 < (data.points.length : ℚ) := length_pos_cast data hne
  have hsum : 0 ≤ ((data.points.map (fun point => point.y - b)).map
      (fun r => r * r)).sum := sum_map_mul_self_nonneg _
  refine ⟨?_, ?_, ?_⟩
  · rw [computeMSE_eq]
    simp [List.map_map, Function.comp_def, pow_two]
  · rw [computeMSE_eq]
    exact div_nonneg hsum (le_of_lt hn)
  · rw [computeMSE_eq]
    rw [div_eq_zero_iff]
    constructor
    · rintro (h | h)
      · intro p hp
        have := (sum_map_mul_self_eq_zero _).mp h (p.y - b)
          (List.mem_map.mpr ⟨p, hp, rfl⟩)
        linarith
      · exact absurd h (ne_of_gt hn)
    · intro h
      left
      apply (sum_map_mul_self_eq_zero _).mpr
      intro r hr
      rcases List.mem_map.mp hr with ⟨p, hp, rfl⟩
      rw [h p hp]
      ring

/-- C3 witness: on the main dataset at `b = 9/2` the MSE is 4, in
particular nonnegative, and nonzero because not every y equals 9/2. -/
theorem C3_mse_nonneg_zero_iff_witness :
    mainData.points ≠ [] ∧
    0 ≤ computeMSE mainData (9/2) ∧
    computeMSE mainData (9/2) = 4 :=
  ⟨by simp [mainData],
    (C3_mse_nonneg_zero_iff mainData (by simp [mainData]) (9/2)).2.1,
    by norm_num [computeMSE_eq, mainData]⟩

/-! ### Run-loop and Step Once lemmas -/

lemma stepGradientDescent_eq (data : Dataset) (learningRate : ℚ) (state : GDState) :
    stepGradientDescent data learningRate state
      = ⟨state.currentB - learningRate * computeMSEDerivative data state.currentB,
          state.history ++ [⟨state.history.length, state.currentB,
            computeMSE data state.currentB,
            computeMSEDerivative data state.currentB⟩],
          state.isRunning⟩ := rfl

lemma runGDIter_eq (data : Dataset) (learningRate : ℚ) (i : ℕ) (state : GDState) :
    runGDIter data learningRate i state
      = ⟨state.currentB - learningRate * computeMSEDerivative data state.currentB,
          state.history ++ [⟨i, state.currentB,
            computeMSE data state.currentB,
            computeMSEDerivative data state.currentB⟩],
          state.isRunning⟩ := rfl

lemma runLoop_spec (data : Dataset) (learningRate : ℚ) (b0 : ℚ) (N : ℕ) :
    (List.range N).foldl (fun s i => runGDIter data learningRate i s)
        ⟨b0, [], true⟩
      = ⟨gdIterate data learningRate b0 N,
          (List.range N).map (runEntry data learningRate b0), true⟩ := by
  induction N with
  | zero => simp [gdIterate]
  | succ n ih =>
      rw [List.range_succ, List.foldl_append, ih]
      simp only [List.foldl_cons, List.foldl_nil, runGDIter_eq]
      rw [List.map_append]
      simp [gdIterate, runEntry]

lemma runGradientDescent_notRunning (data : Dataset) (learningRate : ℚ) (N : ℕ)
    (b0 : ℚ) (h0 : List HistoryEntry) :
    runGradientDescent data learningRate N ⟨b0, h0, false⟩
      = ⟨gdIterate data learningRate b0 N,
          (List.range N).map (runEntry data learningRate b0), false⟩ := by
  rw [runGradientDescent]
  simp only [Bool.false_eq_true, if_false]
  rw [show ({ (⟨b0, h0, false⟩ : GDState) with
      isRunning := true, history := ([] : List HistoryEntry) } : GDState)
      = ⟨b0, [], true⟩ from rfl]
  rw [runLoop_spec]

lemma stepN_fresh (data : Dataset) (learningRate : ℚ) (b0 : ℚ) (r : Bool) (n : ℕ) :
    (stepN data learningRate ⟨b0, [], r⟩ n).history.map (fun e => e.iteration)
        = List.range n ∧
    (stepN data learningRate ⟨b0, [], r⟩ n).history.length = n := by
  induction n with
  | zero => simp [stepN]
  | succ k ih =>
      obtain ⟨ih1, ih2⟩ := ih
      rw [stepN, stepGradientDescent_eq]
      constructor
      · simp only [List.map_append, ih1, ih2, List.map_cons, List.map_nil]
        rw [List.range_succ]
      · simp [ih2]

/-! ### Animation-trace lemmas -/

lemma interpolatedB_eq (oldB newB : ℚ) (steps i : ℕ) :
    interpolatedB oldB newB steps i
      = oldB + (newB - oldB) * (1 - (1 - (i : ℚ) / (steps : ℚ)) ^ 3) := rfl

lemma currentBWrites_ticks (f : ℕ → ℚ) (l : List ℕ) :
    currentBWrites (l.map fun k => AnimEvent.tick (f k)) = l.map f := by
  induction l with
  | nil => rfl
  | cons a t ih => simp [currentBWrites, ih]

lemma currentBWrites_append_snap (l : List AnimEvent) (b : ℚ) :
    currentBWrites (l ++ [AnimEvent.snap b, AnimEvent.complete])
      = currentBWrites l ++ [b] := by
  induction l with
  | nil => rfl
  | cons e t ih => cases e <;> simp [currentBWrites, ih]

lemma interpolatedB_strict_mono (oldB newB : ℚ) (steps i j : ℕ)
    (hb : oldB < newB) (hij : i < j) (hj : j ≤ steps) :
    interpolatedB oldB newB steps i < interpolatedB oldB newB steps j := by
  have hs : 0 < steps := Nat.lt_of_lt_of_le (Nat.lt_of_le_of_lt (Nat.zero_le i) hij) hj
  have hsq : 0 < (steps : ℚ) := by exact_mod_cast hs
  have hija : (i : ℚ) < (j : ℚ) := by exact_mod_cast hij
  have hjq : (j : ℚ) ≤ (steps : ℚ) := by exact_mod_cast hj
  have ha : 0 ≤ 1 - (j : ℚ) / (steps : ℚ) := by
    rw [sub_nonneg]
    exact div_le_one_of_le₀ hjq (le_of_lt hsq)
  have hab : 1 - (j : ℚ) / (steps : ℚ) < 1 - (i : ℚ) / (steps : ℚ) := by
    rw [sub_lt_sub_iff_left]
    rw [div_eq_mul_inv, div_eq_mul_inv]
    exact mul_lt_mul_of_pos_right hija (inv_pos.mpr hsq)
  have hcube : (1 - (j : ℚ) / (steps : ℚ)) ^ 3 < (1 - (i : ℚ) / (steps : ℚ)) ^ 3 :=
    pow_lt_pow_left₀ hab ha (by norm_num)
  rw [interpolatedB_eq, interpolatedB_eq]
  have hd : 0 < newB - oldB := sub_pos.mpr hb
  have hmul := mul_lt_mul_of_pos_left
    (show (1 - (1 - (i : ℚ) / (steps : ℚ)) ^ 3)
        < (1 - (1 - (j : ℚ) / (steps : ℚ)) ^ 3) by linarith) hd
  linarith

lemma interpolatedB_bounds (oldB newB : ℚ) (steps i : ℕ)
    (hb : oldB < newB) (h1 : 1 ≤ i) (h2 : i ≤ steps) :
    oldB ≤ interpolatedB oldB newB steps i ∧
    interpolatedB oldB newB steps i ≤ newB := by
  have hs : 0 < steps := Nat.lt_of_lt_of_le h1 h2
  have hsq : 0 < (steps : ℚ) := by exact_mod_cast hs
  have hiq : 0 ≤ (i : ℚ) := Nat.cast_nonneg i
  have h2q : (i : ℚ) ≤ (steps : ℚ) := by exact_mod_cast h2
  have hp0 : 0 ≤ (i : ℚ) / (steps : ℚ) := div_nonneg hiq (le_of_lt hsq)
  have hp1 : (i : ℚ) / (steps : ℚ) ≤ 1 := div_le_one_of_le₀ h2q (le_of_lt hsq)
  have hc0 : 0 ≤ 1 - (i : ℚ) / (steps : ℚ) := by linarith
  have hc1 : 1 - (i : ℚ) / (steps : ℚ) ≤ 1 := by linarith
  have hcube0 : 0 ≤ (1 - (i : ℚ) / (steps : ℚ)) ^ 3 := pow_nonneg hc0 3
  have hcube1 : (1 - (i : ℚ) / (steps : ℚ)) ^ 3 ≤ 1 := pow_le_one₀ hc0 hc1
  have hd : 0 ≤ newB - oldB := by linarith
  rw [interpolatedB_eq]
  constructor
  · have := mul_nonneg hd (by linarith :
        0 ≤ 1 - (1 - (i : ℚ) / (steps : ℚ)) ^ 3)
    linarith
  · have := mul_le_of_le_one_right hd (by linarith :
        1 - (1 - (i : ℚ) / (steps : ℚ)) ^ 3 ≤ 1)
    linarith

/-! ### Claim theorems (continued) -/

/-- C4 counterexample: the claim quantifies over every starting state, but
when `isRunning` is already `true` the code's guard (src/main.js line 728)
makes `run` return immediately, so with `iterations = 1` the history is left
with 0 entries, not 1. -/
theorem C4_counterexample_isRunning_guard :
    (runGradientDescent mainData (1/5) 1 ⟨0, [], true⟩).history.length ≠ 1 := by
  decide

/-- C4 (amended): for every starting state with `isRunning = false`, a
completed run clears the history and leaves exactly `N` entries; entry `i`
has `iteration = i` and records the b, mse and gradient from just before
iteration `i`'s update (`runEntry` packages those pre-step values). -/
theorem C4_run_history (data : Dataset) (learningRate : ℚ) (N : ℕ)
    (state : GDState) (hrun : state.isRunning = false) (_hN : 0 < N) :
    (runGradientDescent data learningRate N state).history.length = N ∧
    ∀ i, i < N →
      ((runGradientDescent data learningRate N state).history)[i]?
        = some (runEntry data learningRate state.currentB i) := by
  obtain ⟨b0, h0, r⟩ := state
  simp only at hrun
  subst hrun
  rw [runGradientDescent_notRunning]
  constructor
  · simp
  · intro i hi
    rw [List.getElem?_map]
    have : (List.range N)[i]? = some i := by
      simp [List.getElem?_range, hi]
    rw [this]
    rfl

/-- C4 witness: a run of one iteration from b = 3 on the main dataset, not
already running, leaves exactly one history entry, namely iteration 0
snapshotting b = 3. -/
theorem C4_run_history_witness :
    (runGradientDescent mainData (1/5) 1 ⟨3, [], false⟩).history.length = 1 ∧
    ((runGradientDescent mainData (1/5) 1 ⟨3, [], false⟩).history)[0]?
      = some (runEntry mainData (1/5) 3 0) :=
  ⟨(C4_run_history mainData (1/5) 1 ⟨3, [], false⟩ rfl (by norm_num)).1,
    (C4_run_history mainData (1/5) 1 ⟨3, [], false⟩ rfl (by norm_num)).2
      0 (by norm_num)⟩

/-- C9: on the main dataset, a run of 15 iterations at learning rate 1/5
starting from b = -7 (and not already running) ends strictly closer to the
optimum 9/2 than the start, and records 15 history entries. -/
theorem C9_main_run_converges :
    |(runGradientDescent mainData (1/5) 15 ⟨-7, [], false⟩).currentB - 9/2|
        < |(-7 : ℚ) - 9/2| ∧
    (runGradientDescent mainData (1/5) 15 ⟨-7, [], false⟩).history.length = 15 := by
  have hb : (runGradientDescent mainData (1/5) 15 ⟨-7, [], false⟩).currentB
      = 137164089132/30517578125 := by
    rw [runGradientDescent_notRunning]
    norm_num [gdIterate, computeMSEDerivative_eq, mainData]
  constructor
  · rw [hb]
    have habs : |(-7 : ℚ) - 9/2| = 23/2 := by
      rw [show (-7 : ℚ) - 9/2 = -(23/2) by norm_num, abs_neg,
        abs_of_pos (by norm_num : (0:ℚ) < 23/2)]
    rw [habs, abs_sub_lt_iff]
    constructor <;> norm_num
  · rw [runGradientDescent_notRunning]
    simp

/-- C10: Step Once appends exactly one entry, numbered with the history
length before the call; it neither clears history nor consults `isRunning`
(states differing only in `isRunning` step to states differing only in
`isRunning`); and repeated Step Once from a fresh state numbers its entries
`0, 1, 2, ...` consecutively. -/
theorem C10_step_once_append (data : Dataset) (learningRate : ℚ)
    (state : GDState) (r : Bool) (b0 : ℚ) (n : ℕ) :
    (stepGradientDescent data learningRate state).history
      = state.history
          ++ [⟨state.history.length, state.currentB,
                computeMSE data state.currentB,
                computeMSEDerivative data state.currentB⟩] ∧
    stepGradientDescent data learningRate { state with isRunning := r }
      = { stepGradientDescent data learningRate state with isRunning := r } ∧
    (stepN data learningRate ⟨b0, [], r⟩ n).history.map (fun e => e.iteration)
      = List.range n := by
  refine ⟨rfl, ?_, (stepN_fresh data learningRate b0 r n).1⟩
  obtain ⟨b, h, r0⟩ := state
  rfl

/-- C5: for every animation, tick events occur exactly `steps` times (the
step-count parameter; the source hard-codes `animSteps = 20`), in trace
(time) order, and the completion callback occurs exactly once, as the last
event — hence after every tick. -/
theorem C5_tick_count_then_complete (oldB newB : ℚ) (steps : ℕ) :
    ((animTrace oldB newB steps).filter AnimEvent.isTick).length = steps ∧
    ((animTrace oldB newB steps).filter AnimEvent.isComplete).length = 1 ∧
    (animTrace oldB newB steps).getLast? = some AnimEvent.complete := by
  refine ⟨?_, ?_, ?_⟩
  · rw [animTrace, List.filter_append]
    have h1 : ((List.range steps).map fun k =>
          AnimEvent.tick (interpolatedB oldB newB steps (k + 1))).filter
            AnimEvent.isTick
        = (List.range steps).map fun k =>
            AnimEvent.tick (interpolatedB oldB newB steps (k + 1)) := by
      apply List.filter_eq_self.mpr
      intro a ha
      rcases List.mem_map.mp ha with ⟨k, _, rfl⟩
      rfl
    rw [h1]
    simp [AnimEvent.isTick]
  · rw [animTrace, List.filter_append]
    have h1 : ((List.range steps).map fun k =>
          AnimEvent.tick (interpolatedB oldB newB steps (k + 1))).filter
            AnimEvent.isComplete = [] := by
      rw [List.filter_eq_nil_iff]
      intro a ha
      rcases List.mem_map.mp ha with ⟨k, _, rfl⟩
      simp [AnimEvent.isComplete]
    rw [h1]
    simp [AnimEvent.isComplete]
  · rw [animTrace,
      show [AnimEvent.snap newB, AnimEvent.complete]
        = [AnimEvent.snap newB] ++ [AnimEvent.complete] from rfl,
      ← List.append_assoc]
    simp [List.getLast?_concat]

/-- C6: the value delivered at tick `i` (for `1 ≤ i ≤ steps`) is exactly
`fromB + (toB - fromB) * (1 - (1 - i/steps)^3)`, and the final value the
animation leaves in `currentB` (the last write of the trace, the snap) is
exactly `toB`. -/
theorem C6_tick_value_and_final_snap (fromB toB : ℚ) (steps i : ℕ)
    (h1 : 1 ≤ i) (h2 : i ≤ steps) :
    (animTrace fromB toB steps)[i - 1]?
      = some (AnimEvent.tick
          (fromB + (toB - fromB) * (1 - (1 - (i : ℚ) / (steps : ℚ)) ^ 3))) ∧
    (currentBWrites (animTrace fromB toB steps)).getLast? = some toB := by
  constructor
  · have hi : i - 1 < steps := by omega
    rw [animTrace,
      List.getElem?_append_left (by simpa using hi),
      List.getElem?_map]
    have hr : (List.range steps)[i - 1]? = some (i - 1) := by
      simp [List.getElem?_range, hi]
    rw [hr]
    have hsucc : i - 1 + 1 = i := by omega
    simp only [Option.map_some']
    rw [hsucc, interpolatedB_eq]
  · rw [animTrace, currentBWrites_append_snap]
    simp [List.getLast?_concat]

/-- C6 witness: for fromB = 3, toB = 5, stepCount = 20, tick 20 delivers the
eased value, which evaluates to exactly 5, and the final snap leaves 5. -/
theorem C6_tick_value_and_final_snap_witness :
    ((animTrace 3 5 20)[19]?
        = some (AnimEvent.tick
            (3 + ((5 : ℚ) - 3) * (1 - (1 - (20 : ℚ) / (20 : ℚ)) ^ 3))) ∧
      (currentBWrites (animTrace 3 5 20)).getLast? = some 5) ∧
    (3 : ℚ) + ((5 : ℚ) - 3) * (1 - (1 - (20 : ℚ) / (20 : ℚ)) ^ 3) = 5 :=
  ⟨C6_tick_value_and_final_snap 3 5 20 20 (by norm_num) (by norm_num),
    by norm_num⟩

/-- C7: when `fromB < toB` the tick values are strictly increasing in the
tick index, and every tick value lies between `fromB` and `toB`. -/
theorem C7_strictly_monotone_ticks (fromB toB : ℚ) (steps : ℕ)
    (hb : fromB < toB) :
    (∀ i j, 1 ≤ i → i < j → j ≤ steps →
        interpolatedB fromB toB steps i < interpolatedB fromB toB steps j) ∧
    (∀ i, 1 ≤ i → i ≤ steps →
        fromB ≤ interpolatedB fromB toB steps i ∧
        interpolatedB fromB toB steps i ≤ toB) := by
  constructor
  · intro i j h1 hij hj
    exact interpolatedB_strict_mono fromB toB steps i j hb hij hj
  · intro i h1 h2
    exact interpolatedB_bounds fromB toB steps i hb h1 h2

/-- C7 witness: for fromB = 3, toB = 5 and the source's 20 steps, tick 1 is
strictly below tick 2, and tick 1 lies between 3 and 5. -/
theorem C7_strictly_monotone_ticks_witness :
    (3 : ℚ) < 5 ∧
    interpolatedB 3 5 20 1 < interpolatedB 3 5 20 2 ∧
    (3 : ℚ) ≤ interpolatedB 3 5 20 1 ∧ interpolatedB 3 5 20 1 ≤ 5 :=
  ⟨by norm_num,
    (C7_strictly_monotone_ticks 3 5 20 (by norm_num)).1 1 2 (le_refl 1)
      (by norm_num) (by norm_num),
    (C7_strictly_monotone_ticks 3 5 20 (by norm_num)).2 1 (le_refl 1)
      (by norm_num)⟩

/-- C8 counterexample: in the source every tick writes its interpolated
value to `gdState.currentB` (src/main.js line 685), so during the animation
from 3 to 5 `currentB` takes the mid-trajectory value 19/4 (which the claim
says goes only to the display), and tick 20 — before the snap and before
`onDone` fires — already writes the new value 5 to `currentB`, refuting
"before the animation completes, currentB never holds the new value". -/
theorem C8_counterexample_tick_writes :
    (¬ ∀ b : ℚ, AnimEvent.tick b ∈ animateGradientDescentStep 3 5 → b ≠ 5) ∧
    (19/4 : ℚ) ∈ currentBWrites (animateGradientDescentStep 3 5) := by
  have h20 : interpolatedB 3 5 20 (19 + 1) = 5 := by
    rw [interpolatedB_eq]
    norm_num
  have h10 : interpolatedB 3 5 20 (9 + 1) = 19/4 := by
    rw [interpolatedB_eq]
    norm_num
  constructor
  · intro h
    apply h 5 ?_ rfl
    rw [animateGradientDescentStep, animTrace, animSteps]
    apply List.mem_append_left
    apply List.mem_map.mpr
    exact ⟨19, by simp, by rw [h20]⟩
  · rw [animateGradientDescentStep, animTrace, animSteps,
      currentBWrites_append_snap,
      currentBWrites_ticks (fun k => interpolatedB 3 5 20 (k + 1))]
    apply List.mem_append_left
    apply List.mem_map.mpr
    exact ⟨9, by simp, h10⟩

/-- C8 (amended): during `stepOnce`, the animation writes `currentB` on
every tick with the interpolated value — the same value it sends to the
display — so `currentB` traverses the whole interpolated trajectory, and
the last write (the post-loop snap) sets `currentB` to the new post-step
value exactly. -/
theorem C8_amended_currentB_per_tick (oldB newB : ℚ) (steps : ℕ) :
    currentBWrites (animTrace oldB newB steps)
      = ((List.range steps).map fun k => interpolatedB oldB newB steps (k + 1))
          ++ [newB] ∧
    (currentBWrites (animTrace oldB newB steps)).getLast? = some newB := by
  have h : currentBWrites (animTrace oldB newB steps)
      = ((List.range steps).map fun k => interpolatedB oldB newB steps (k + 1))
          ++ [newB] := by
    rw [animTrace, currentBWrites_append_snap,
      currentBWrites_ticks (fun k => interpolatedB oldB newB steps (k + 1))]
  refine ⟨h, ?_⟩
  rw [h]
  simp [List.getLast?_concat]

end MathFinal
